import Mathlib

/-!
Verification of theurbanworld's GHSL raster-to-H3 population pipeline and its
web consumer (src/web, the useH3Data composable), against the repository's
natural-language specification.

Conventions of the embedding:
- H3 cell identifiers (UInt64 in the parquet schema) are modelled as `Nat`;
  they are opaque identifiers, no arithmetic is performed on them.
- Population values (Float64 in the parquet schema) are modelled as `ℚ`;
  the claims under study concern the grouping/summing algebra, which the
  spec itself states up to floating-point tolerance.
- The pipeline stage scripts (s01..s04) are documented in
  src/pipeline/GHSL_PIPELINE.md but their Python sources are not in the
  tree; definitions for those stages are modelled from the spec and are
  marked as such in their doc comments.  The web consumer
  (src/web/types/h3.ts and the useH3Data composable) is embedded directly
  from its source.
-/

/-- CellValue, the atomic output unit of the pipeline (spec §3; output schema
of GHSL_PIPELINE.md: h3_index UInt64, population Float64). -/
structure CellValue where
  cell_id : Nat
  value : ℚ
  deriving DecidableEq, Repr

/-- PartialResult: the collection of CellValue records produced by one
RasterPartition (spec §3). -/
abbrev PartialResult := List CellValue

/-- Modelled from the spec: the Merge-Dedup Engine.  The implementing script
(src/s03_raster_to_h3_100m.py, per GHSL_PIPELINE.md the DuckDB merge that sums
population for duplicate h3_index values) is not in the source tree.  Given
all PartialResults of one (resolution, epoch) group, it groups all CellValue
records by cell_id and sums their values, producing the CanonicalGrid rows. -/
def mergeDedup (prs : List PartialResult) : List (Nat × ℚ) :=
  ((prs.flatten.map CellValue.cell_id).dedup).map fun c =>
    (c, ((prs.flatten.filter fun cv => cv.cell_id == c).map CellValue.value).sum)

/-- The total contribution to one cell across every PartialResult of a group. -/
def totalFor (c : Nat) (prs : List PartialResult) : ℚ :=
  ((prs.flatten.filter fun cv => cv.cell_id == c).map CellValue.value).sum

/-- All cell identifiers mentioned by any record of any PartialResult. -/
def cellIds (prs : List PartialResult) : List Nat :=
  prs.flatten.map CellValue.cell_id

/-- Modelled from the spec: the Time-Series Composer (the DuckDB pivot of
src/s04_raster_to_h3_1km_modal.py, not in the source tree).  It takes the
per-epoch CanonicalGrids of one resolution, forms the union of all cell_ids,
and emits one row per cell_id with one column per epoch: the CanonicalGrid
value where the cell is present, and the explicit missing marker (`none`)
where it is absent. -/
def composeTimeSeries (epochs : List Nat) (grids : Nat → List (Nat × ℚ)) :
    List (Nat × List (Option ℚ)) :=
  ((epochs.flatMap fun e => (grids e).map Prod.fst).dedup).map fun c =>
    (c, epochs.map fun e => ((grids e).find? fun r => r.1 == c).map Prod.snd)

/-- A reprojected raster pixel: geographic coordinates plus its value
(spec §4.2/§4.3). -/
structure Pixel where
  lon : ℚ
  lat : ℚ
  value : ℚ
  deriving DecidableEq, Repr

/-- Modelled from the spec: the Hexagonal Rasterizer (the h3ronpy
raster-to-dataframe call plus the population > 0 filter of the s03/s04
scripts, not in the source tree).  `latLonToCell` abstracts the H3 cell
assignment at the target resolution.  Pixels with value ≤ 0 or equal to the
nodata sentinel are dropped before emission; the surviving pixels are grouped
by covering cell and their values summed. -/
def rasterize (latLonToCell : Pixel → Nat) (nodata : ℚ) (pixels : List Pixel) :
    PartialResult :=
  (mergeDedup
    [(pixels.filter fun px => decide (0 < px.value) && decide (px.value ≠ nodata)).map
      fun px => CellValue.mk (latLonToCell px) px.value]).map
    fun r => CellValue.mk r.1 r.2

/-- YEAR_EPOCHS (from src/web/types/h3.ts): the fixed enumerated set of time
epochs of the timeseries. -/
def YEAR_EPOCHS : List Nat :=
  [1975, 1980, 1985, 1990, 1995, 2000, 2005, 2010, 2015, 2020, 2025, 2030]

/-- A value as the consumer sees one parquet column of one row (from the
useH3Data.loadData row loop): a finite number, NaN, a string, something else,
or — wrapped in `Option` at use sites — absent. -/
inductive JSVal where
  | num (q : ℚ)
  | nan
  | str (s : String)
  | other
  deriving DecidableEq, Repr

/-- From src (useH3Data.loadData): a per-epoch population cell is read as its
value when it is a number and not NaN, and as exactly 0 otherwise. -/
def parsePop (v : Option JSVal) : ℚ :=
  match v with
  | some (JSVal.num q) => q
  | _ => 0

/-- H3Hexagon (from src/web/types/h3.ts): one hexagon of the per-year view. -/
structure H3Hexagon where
  h3Index : String
  population : ℚ
  deriving DecidableEq, Repr

/-- H3RawData (from the useH3Data composable): the in-memory dataset — the
hex-string indices plus one population array per year. -/
structure H3RawData where
  h3Indices : List String
  populationByYear : List (Nat × List ℚ)
  deriving DecidableEq, Repr

/-- Map lookup on populationByYear (the consumer's populationByYear.get). -/
def lookupYear (m : List (Nat × List ℚ)) (y : Nat) : Option (List ℚ) :=
  (m.find? fun p => p.1 == y).map Prod.snd

/-- From src (useH3Data.getDataForYear): with no dataset loaded, or no
population array for the year, the empty list; otherwise one H3Hexagon per
index position whose population for that year is strictly positive. -/
def getDataForYear (cache : Option H3RawData) (year : Nat) : List H3Hexagon :=
  match cache with
  | none => []
  | some d =>
    match lookupYear d.populationByYear year with
    | none => []
    | some populations =>
      (List.range d.h3Indices.length).filterMap fun i =>
        (d.h3Indices[i]?).bind fun h3i =>
          (populations[i]?).bind fun p =>
            if 0 < p then some (H3Hexagon.mk h3i p) else none

/-- The module-level singleton state of the useH3Data composable (from src):
the cached dataset (rawDataCache, abstracted to an identifier), the in-flight
load promise (loadPromise, abstracted to an identifier), and a count of
fetches started so far (for stating the load-once property; not a program
variable). -/
structure LoadState where
  cache : Option Nat
  promise : Option Nat
  fetches : Nat
  deriving DecidableEq, Repr

/-- The state before any call: nothing cached, nothing in flight. -/
def initLoadState : LoadState := LoadState.mk none none 0

/-- An event of a session: a loadData call, or the completion of the in-flight
load (success with a parsed dataset, or failure). -/
inductive LoadEvent where
  | call
  | succeed (d : Nat)
  | fail
  deriving DecidableEq, Repr

/-- From src (useH3Data.loadData): a call returns the in-flight promise if one
exists, returns immediately if the cache is populated, and otherwise starts a
new fetch; a successful load stores the dataset and clears the promise (the
finally block); a failed load leaves the cache empty and clears the promise
(the finally block runs after the catch rethrows). -/
def loadStep (s : LoadState) : LoadEvent → LoadState
  | LoadEvent.call =>
    if s.promise.isSome then s
    else if s.cache.isSome then s
    else LoadState.mk s.cache (some s.fetches) (s.fetches + 1)
  | LoadEvent.succeed d =>
    if s.promise.isSome then LoadState.mk (some d) none s.fetches else s
  | LoadEvent.fail =>
    if s.promise.isSome then LoadState.mk s.cache none s.fetches else s

/-- What a loadData call returns to its caller, per the three branches of the
source function. -/
inductive CallResult where
  | existing (p : Nat)
  | immediate
  | started (p : Nat)
  deriving DecidableEq, Repr

/-- The return value of a loadData call in a given state (from src): the
existing in-flight promise, an immediate return, or a newly started load. -/
def callResult (s : LoadState) : CallResult :=
  match s.promise with
  | some p => CallResult.existing p
  | none => if s.cache.isSome then CallResult.immediate else CallResult.started s.fetches

/-- A session: the state after a sequence of events from the initial state. -/
def loadRun (evs : List LoadEvent) : LoadState :=
  evs.foldl loadStep initLoadState

/-- Invariant of the load state machine: a populated cache implies no
in-flight promise. -/
abbrev LoadInv (s : LoadState) : Prop :=
  s.cache.isSome = true → s.promise = none

/-- Invariant tying the fetch count to the state while no load has failed:
at most one fetch, and if one happened its promise is still in flight or its
dataset is cached. -/
abbrev FetchInv (s : LoadState) : Prop :=
  s.fetches ≤ 1 ∧ (s.fetches = 1 → (s.promise.isSome = true ∨ s.cache.isSome = true))

/-- Modelled from the spec: one Orchestrator run over a partition plan with a
ProgressCheckpoint (spec §4.7, §3).  `done` is the checkpoint's `complete`
bit per partition, `store` the persisted PartialResult of a completed
partition, `worker` the (deterministic) Tile/Epoch Worker.  The run skips
complete partitions, (re)processes the rest, and merges all PartialResults;
it returns the list of partitions it processed and the final CanonicalGrid. -/
def runPipeline (worker : Nat → PartialResult) (plan : List Nat)
    (done : Nat → Bool) (store : Nat → Option PartialResult) :
    List Nat × List (Nat × ℚ) :=
  (plan.filter fun p => !done p,
   mergeDedup (plan.map fun p => if done p then (store p).getD [] else worker p))

/-- ProgressCheckpoint status of a partition (spec §3). -/
inductive Status where
  | pending
  | in_progress
  | complete
  | failed
  deriving DecidableEq, Repr

/-- The outcome of invoking the Merge-Dedup Engine: a CanonicalGrid, or the
IncompleteGroup signal. -/
inductive MergeOutcome where
  | grid (g : List (Nat × ℚ))
  | incompleteGroup
  deriving DecidableEq, Repr

/-- Modelled from the spec: the merge barrier (spec §4.5/§5).  The Merge-Dedup
Engine for a group runs only when every partition of the group shows
`complete` in the ProgressCheckpoint; otherwise it signals IncompleteGroup. -/
def mergeGroup (ckpt : Nat → Status) (group : List Nat)
    (results : Nat → PartialResult) : MergeOutcome :=
  if group.all fun p => ckpt p == Status.complete then
    MergeOutcome.grid (mergeDedup (group.map results))
  else
    MergeOutcome.incompleteGroup

/-- What the Orchestrator does with a merge outcome: record the grid, defer
the merge, or surface an operator error. -/
inductive OrchestratorAction where
  | recordMerged (g : List (Nat × ℚ))
  | deferMerge
  | reportError (msg : String)
  deriving DecidableEq, Repr

/-- Modelled from the spec: IncompleteGroup is a scheduling signal, never an
operator error — the Orchestrator defers the merge (spec §4.5, §7). -/
def handleMergeOutcome : MergeOutcome → OrchestratorAction
  | MergeOutcome.grid g => OrchestratorAction.recordMerged g
  | MergeOutcome.incompleteGroup => OrchestratorAction.deferMerge

/-- Example PartialResults of the dedup scenario: two partitions that each
emit one record for the same cell, with values 50 and 30. -/
def exPRs : List PartialResult := [[CellValue.mk 1 50], [CellValue.mk 1 30]]

/-- A two-partition group for the order-independence scenario. -/
def exPRsA : List PartialResult := [[CellValue.mk 1 50], [CellValue.mk 2 10]]

/-- The partitions of exPRsA, merged in the opposite order. -/
def exPRsB : List PartialResult := [[CellValue.mk 2 10], [CellValue.mk 1 50]]

/-- A two-epoch slice of the epoch plan, for witnesses. -/
def exEpochs : List Nat := [1975, 1980]

/-- Per-epoch CanonicalGrids in which cell 7 appears only in epoch 1980. -/
def exGrids : Nat → List (Nat × ℚ) := fun e => if e = 1980 then [(7, 5)] else []

/-- A single reprojected pixel with population 5. -/
def exPixel : Pixel := Pixel.mk 0 0 5

/-- A constant cell assignment, sending every pixel to cell 3. -/
def cellOf : Pixel → Nat := fun _ => 3

/-- A one-partition group carrying a single record (cell 1, value 2). -/
def exPRsOne : List PartialResult := [[CellValue.mk 1 2]]

/-- A loaded dataset with one hexagon and one year of data. -/
def exRawData : H3RawData := H3RawData.mk ["8a1fb46622dffff"] [(2020, [4])]

/-- A deterministic worker producing one record per partition. -/
def exWorker : Nat → PartialResult := fun p => [CellValue.mk p 1]

/-- A three-partition plan. -/
def exPlan : List Nat := [1, 2, 3]

/-- A checkpoint in which exactly partition 1 is complete. -/
def exDone : Nat → Bool := fun p => p == 1

/-- A store holding the persisted PartialResult of partition 1. -/
def exStore : Nat → Option PartialResult :=
  fun p => if p == 1 then some [CellValue.mk 1 1] else none

/-- A two-partition merge group. -/
def exGroup : List Nat := [1, 2]

/-- A checkpoint showing every partition complete. -/
def exCkptAll : Nat → Status := fun _ => Status.complete

/-- A checkpoint in which partition 2 is still pending. -/
def exCkptPart : Nat → Status :=
  fun p => if p = 2 then Status.pending else Status.complete

/-- Per-partition results for the merge-barrier witness. -/
def exResults : Nat → PartialResult := fun p => [CellValue.mk p 1]

/-- Filtering a duplicate-free list of keys for one of its members yields
exactly that member. -/
lemma nodup_filter_beq {l : List Nat} {c : Nat} (hn : l.Nodup) (hc : c ∈ l) :
    l.filter (fun x => x == c) = [c] := by
  induction l with
  | nil => cases hc
  | cons a t ih =>
    rcases List.nodup_cons.mp hn with ⟨ha, ht⟩
    rcases List.mem_cons.mp hc with h | h
    · subst h
      have hnil : t.filter (fun x => x == c) = [] :=
        List.filter_eq_nil_iff.mpr (fun x hx => by
          simp only [beq_iff_eq]
          intro hxc
          exact ha (hxc ▸ hx))
      simp [List.filter_cons, hnil]
    · have hac : ¬((a == c) = true) := by
        simp only [beq_iff_eq]
        intro h2
        exact ha (h2 ▸ h)
      simp only [List.filter_cons, if_neg hac]
      exact ih ht h

/-- Summing a constant-zero map gives zero. -/
lemma sum_map_zero (l : List Nat) : (l.map fun _ => (0 : ℚ)).sum = 0 := by
  induction l with
  | nil => rfl
  | cons a t ih => simp [ih]

/-- Over a duplicate-free key list, summing an indicator that pays `v` at one
member key and `0` elsewhere gives `v`. -/
lemma sum_map_single {l : List Nat} {a : Nat} (hn : l.Nodup) (ha : a ∈ l) (v : ℚ) :
    (l.map fun c => if a = c then v else 0).sum = v := by
  induction l with
  | nil => cases ha
  | cons b t ih =>
    rcases List.nodup_cons.mp hn with ⟨hb, ht⟩
    rcases List.mem_cons.mp ha with h | h
    · subst h
      simp only [List.map_cons, List.sum_cons, if_pos rfl]
      have hz : (t.map fun c => if a = c then v else 0) = t.map fun _ => (0 : ℚ) :=
        List.map_congr_left (fun x hx => by
          rw [if_neg]
          intro hax
          exact hb (hax ▸ hx))
      rw [hz, sum_map_zero]
      simp
    · have hba : a ≠ b := fun h2 => hb (h2 ▸ h)
      simp only [List.map_cons, List.sum_cons, if_neg hba, ih ht h]
      simp

/-- Partitioning a list of records over a duplicate-free key list that covers
every record's key, then summing fiberwise, recovers the total sum. -/
lemma sum_fiber (ks : List Nat) (hn : ks.Nodup) :
    ∀ all : List CellValue, (∀ cv ∈ all, cv.cell_id ∈ ks) →
      (ks.map fun c =>
        ((all.filter fun cv => cv.cell_id == c).map CellValue.value).sum).sum
        = (all.map CellValue.value).sum := by
  intro all
  induction all with
  | nil =>
    intro _
    simp
  | cons cv rest ih =>
    intro hmem
    have hrest : ∀ x ∈ rest, x.cell_id ∈ ks :=
      fun x hx => hmem x (List.mem_cons_of_mem _ hx)
    have hcv : cv.cell_id ∈ ks := hmem cv (List.mem_cons_self _ _)
    have hpoint : ∀ c ∈ ks,
        (((cv :: rest).filter fun x => x.cell_id == c).map CellValue.value).sum
          = (if cv.cell_id = c then cv.value else 0)
            + ((rest.filter fun x => x.cell_id == c).map CellValue.value).sum := by
      intro c _
      by_cases h : cv.cell_id = c
      · simp [List.filter_cons, h]
      · simp [List.filter_cons, h]
    rw [List.map_congr_left hpoint, List.sum_map_add, sum_map_single hn hcv, ih hrest]
    simp

/-- C1: merging all PartialResults of a group groups CellValue records by
cell_id and sums their values, so any cell_id contributed by any partition
gets exactly one row in the CanonicalGrid, carrying the sum of all its
contributions — never two rows, never a single partition's value alone. -/
theorem mergeDedup_exactly_one_row (prs : List PartialResult) (c : Nat)
    (hc : c ∈ cellIds prs) :
    (mergeDedup prs).filter (fun r => r.1 == c) = [(c, totalFor c prs)] := by
  unfold mergeDedup
  rw [List.filter_map]
  have hcomp : ((fun r : Nat × ℚ => r.1 == c) ∘ fun k =>
      (k, ((prs.flatten.filter fun cv => cv.cell_id == k).map CellValue.value).sum))
      = fun k => k == c := rfl
  rw [hcomp]
  have hc2 : c ∈ prs.flatten.map CellValue.cell_id := hc
  rw [nodup_filter_beq (List.nodup_dedup _) (List.mem_dedup.mpr hc2)]
  rfl

/-- Witness for C1 at the spec's concrete dedup scenario: two partitions emit
values 50 and 30 for cell 1; the merged grid's rows for cell 1 are exactly
one row carrying 80. -/
theorem mergeDedup_exactly_one_row_witness :
    1 ∈ cellIds exPRs ∧
    (mergeDedup exPRs).filter (fun r => r.1 == 1) = [(1, 80)] := by
  refine ⟨by decide, ?_⟩
  have h := mergeDedup_exactly_one_row exPRs 1 (by decide)
  rw [h]
  have ht : totalFor 1 exPRs = 80 := by
    simp [totalFor, exPRs]
    norm_num
  rw [ht]

/-- C2: additivity.  The total value of the CanonicalGrid equals the sum of
all individual CellValue values across all contributing PartialResults, and
each row's value equals the sum of the values for its cell_id across every
contributing PartialResult. -/
theorem mergeDedup_additive (prs : List PartialResult) :
    ((mergeDedup prs).map Prod.snd).sum = (prs.flatten.map CellValue.value).sum ∧
    ∀ r ∈ mergeDedup prs, r.2 = totalFor r.1 prs := by
  constructor
  · unfold mergeDedup
    rw [List.map_map]
    have hcomp : (Prod.snd ∘ fun c =>
        (c, ((prs.flatten.filter fun cv => cv.cell_id == c).map CellValue.value).sum))
        = fun c => ((prs.flatten.filter fun cv => cv.cell_id == c).map CellValue.value).sum :=
      rfl
    rw [hcomp]
    exact sum_fiber _ (List.nodup_dedup _) prs.flatten
      (fun cv hcv => List.mem_dedup.mpr (List.mem_map_of_mem _ hcv))
  · intro r hr
    unfold mergeDedup at hr
    rcases List.mem_map.mp hr with ⟨c, _, rfl⟩
    rfl

/-- Witness for C2 on the concrete two-partition group: total 80, and the
row (1, 80) carries exactly the cross-partition sum for cell 1. -/
theorem mergeDedup_additive_witness :
    ((mergeDedup exPRs).map Prod.snd).sum = (80 : ℚ) ∧
    ((1 : Nat), (80 : ℚ)).2 = totalFor 1 exPRs := by
  have h := mergeDedup_additive exPRs
  constructor
  · rw [h.1]
    simp [exPRs]
    norm_num
  · have hm : ((1 : Nat), (80 : ℚ)) ∈ mergeDedup exPRs := by
      have he : mergeDedup exPRs = [(1, 80)] := by
        simp [mergeDedup, exPRs]
        norm_num
      rw [he]
      simp
    exact h.2 (1, 80) hm

/-- C3: merge determinism and order-independence.  Any two runs of the
Merge-Dedup Engine on the same completed partition set — in particular the
same set with partitions merged in a different order — produce the same
CanonicalGrid as a set of (cell_id, value) pairs: the aggregation is
commutative. -/
theorem mergeDedup_perm_invariant (prs₁ prs₂ : List PartialResult)
    (h : prs₁.Perm prs₂) :
    (mergeDedup prs₁).toFinset = (mergeDedup prs₂).toFinset := by
  have hall : prs₁.flatten.Perm prs₂.flatten := h.flatten
  have htot : ∀ c : Nat,
      ((prs₁.flatten.filter fun cv => cv.cell_id == c).map CellValue.value).sum
        = ((prs₂.flatten.filter fun cv => cv.cell_id == c).map CellValue.value).sum :=
    fun c => ((hall.filter _).map _).sum_eq
  have hkeys : ((prs₁.flatten.map CellValue.cell_id).dedup).Perm
      ((prs₂.flatten.map CellValue.cell_id).dedup) :=
    (hall.map _).dedup
  apply List.toFinset_eq_of_perm
  unfold mergeDedup
  have hfun : (fun c =>
      (c, ((prs₁.flatten.filter fun cv => cv.cell_id == c).map CellValue.value).sum))
      = fun c =>
      (c, ((prs₂.flatten.filter fun cv => cv.cell_id == c).map CellValue.value).sum) :=
    funext fun c => by rw [htot c]
  rw [hfun]
  exact hkeys.map _

/-- Witness for C3: swapping the two partitions of a group leaves the
CanonicalGrid unchanged as a set of (cell_id, value) pairs. -/
theorem mergeDedup_perm_invariant_witness :
    (mergeDedup exPRsA).toFinset = (mergeDedup exPRsB).toFinset :=
  mergeDedup_perm_invariant exPRsA exPRsB (by decide)

/-- C4: no silent gaps.  Every cell_id present in any per-epoch CanonicalGrid
gets a row in the TimeSeriesGrid; at every epoch from which that cell_id is
absent, the row carries the explicit missing marker rather than being
dropped; and the consumer reads a missing or non-numeric per-epoch value as
exactly 0. -/
theorem composeTimeSeries_no_silent_gaps (epochs : List Nat)
    (grids : Nat → List (Nat × ℚ)) (c e : Nat)
    (he : e ∈ epochs) (hc : c ∈ (grids e).map Prod.fst) :
    (∃ vs, (c, vs) ∈ composeTimeSeries epochs grids) ∧
    (∀ vs : List (Option ℚ), (c, vs) ∈ composeTimeSeries epochs grids →
      ∀ (j : Nat) (e2 : Nat), epochs[j]? = some e2 → c ∉ (grids e2).map Prod.fst →
        vs[j]? = some none) ∧
    parsePop none = 0 ∧ parsePop (some JSVal.nan) = 0 ∧
    ∀ s, parsePop (some (JSVal.str s)) = 0 := by
  have hcell : c ∈ (epochs.flatMap fun e2 => (grids e2).map Prod.fst).dedup :=
    List.mem_dedup.mpr (List.mem_flatMap.mpr ⟨e, he, hc⟩)
  refine ⟨⟨_, List.mem_map_of_mem _ hcell⟩, ?_, rfl, rfl, fun s => rfl⟩
  intro vs hvs j e2 hj hce2
  unfold composeTimeSeries at hvs
  rcases List.mem_map.mp hvs with ⟨c2, _, heq⟩
  injection heq with h1 h2
  subst h1
  rw [← h2, List.getElem?_map, hj]
  have hnone : (grids e2).find? (fun r => r.1 == c2) = none :=
    List.find?_eq_none.mpr (fun x hx => by
      simp only [beq_iff_eq]
      intro hxc
      exact hce2 (hxc ▸ List.mem_map_of_mem Prod.fst hx))
  simp [hnone]

/-- Witness for C4: with cell 7 present only in epoch 1980, the composed row
for cell 7 exists, and its 1975 column (index 0) is the explicit missing
marker. -/
theorem composeTimeSeries_no_silent_gaps_witness :
    (7, [none, some (5 : ℚ)]) ∈ composeTimeSeries exEpochs exGrids ∧
    ([none, some (5 : ℚ)] : List (Option ℚ))[0]? = some none := by
  have h := composeTimeSeries_no_silent_gaps exEpochs exGrids 7 1980
    (by decide) (by decide)
  refine ⟨by decide, ?_⟩
  exact h.2.1 [none, some 5] (by decide) 0 1975 (by decide) (by decide)

/-- Merging PartialResults whose records are all strictly positive yields
only strictly positive CanonicalGrid values. -/
lemma mergeDedup_pos (prs : List PartialResult)
    (hpos : ∀ cv ∈ prs.flatten, 0 < cv.value) :
    ∀ r ∈ mergeDedup prs, 0 < r.2 := by
  intro r hr
  unfold mergeDedup at hr
  rcases List.mem_map.mp hr with ⟨c, hc, rfl⟩
  have hcmem : c ∈ prs.flatten.map CellValue.cell_id := List.mem_dedup.mp hc
  rcases List.mem_map.mp hcmem with ⟨cv0, hcv0, hcid⟩
  apply List.sum_pos
  · intro x hx
    rcases List.mem_map.mp hx with ⟨cv, hcv, rfl⟩
    exact hpos cv (List.mem_filter.mp hcv).1
  · have hmem : cv0 ∈ prs.flatten.filter fun cv => cv.cell_id == c :=
      List.mem_filter.mpr ⟨hcv0, by simp [beq_iff_eq, hcid]⟩
    exact List.ne_nil_of_mem (List.mem_map_of_mem _ hmem)

/-- Merging PartialResults whose records are all nonnegative yields only
nonnegative CanonicalGrid values. -/
lemma mergeDedup_nonneg (prs : List PartialResult)
    (h : ∀ cv ∈ prs.flatten, 0 ≤ cv.value) :
    ∀ r ∈ mergeDedup prs, 0 ≤ r.2 := by
  intro r hr
  unfold mergeDedup at hr
  rcases List.mem_map.mp hr with ⟨c, _, rfl⟩
  apply List.sum_nonneg
  intro x hx
  rcases List.mem_map.mp hx with ⟨cv, hcv, rfl⟩
  exact h cv (List.mem_filter.mp hcv).1

/-- The merged grid of a single one-record PartialResult is that record. -/
lemma mergeDedup_single (cv : CellValue) :
    mergeDedup [[cv]] = [(cv.cell_id, cv.value)] := by
  simp [mergeDedup, List.filter_cons]

/-- Rasterizing a single kept pixel emits exactly its cell and value. -/
lemma rasterize_single (f2 : Pixel → Nat) (nd : ℚ) (px : Pixel)
    (h1 : 0 < px.value) (h2 : px.value ≠ nd) :
    rasterize f2 nd [px] = [CellValue.mk (f2 px) px.value] := by
  unfold rasterize
  have hfilter : [px].filter (fun q => decide (0 < q.value) && decide (q.value ≠ nd))
      = [px] := by
    simp [List.filter_cons, h1, h2]
  rw [hfilter]
  show (mergeDedup [[CellValue.mk (f2 px) px.value]]).map (fun r => CellValue.mk r.1 r.2) = _
  rw [mergeDedup_single]
  rfl

/-- C5: non-negativity.  The Hexagonal Rasterizer emits only strictly
positive contributions (nodata and ≤ 0 pixels are dropped before emission);
the Merge-Dedup Engine preserves nonnegativity into the CanonicalGrid; the
Time-Series Composer preserves it into every present TimeSeriesGrid entry;
and getDataForYear returns only hexagons with strictly positive population
for the requested year. -/
theorem pipeline_nonneg :
    (∀ (f : Pixel → Nat) (nodata : ℚ) (pixels : List Pixel),
      ∀ cv ∈ rasterize f nodata pixels, 0 < cv.value) ∧
    (∀ prs : List PartialResult, (∀ cv ∈ prs.flatten, 0 ≤ cv.value) →
      ∀ r ∈ mergeDedup prs, 0 ≤ r.2) ∧
    (∀ (epochs : List Nat) (grids : Nat → List (Nat × ℚ)),
      (∀ e : Nat, ∀ r ∈ grids e, 0 ≤ r.2) →
      ∀ row ∈ composeTimeSeries epochs grids, ∀ v : ℚ, some v ∈ row.2 → 0 ≤ v) ∧
    (∀ (cache : Option H3RawData) (year : Nat),
      ∀ hx ∈ getDataForYear cache year, 0 < hx.population) := by
  refine ⟨?_, ?_, ?_, ?_⟩
  · intro f nodata pixels cv hcv
    unfold rasterize at hcv
    rcases List.mem_map.mp hcv with ⟨r, hr, rfl⟩
    show 0 < r.2
    refine mergeDedup_pos _ ?_ r hr
    intro cv2 hcv2
    rcases List.mem_flatten.mp hcv2 with ⟨l2, hl2, hcv2m⟩
    have hl2e : l2 = (pixels.filter fun px =>
        decide (0 < px.value) && decide (px.value ≠ nodata)).map
          fun px => CellValue.mk (f px) px.value := by
      simpa using hl2
    subst hl2e
    rcases List.mem_map.mp hcv2m with ⟨px, hpx, rfl⟩
    have hcond := (List.mem_filter.mp hpx).2
    simp only [Bool.and_eq_true, decide_eq_true_eq] at hcond
    exact hcond.1
  · exact fun prs h => mergeDedup_nonneg prs h
  · intro epochs grids hg row hrow v hv
    unfold composeTimeSeries at hrow
    rcases List.mem_map.mp hrow with ⟨c, _, rfl⟩
    rcases List.mem_map.mp hv with ⟨e, _, heq⟩
    cases hfind : (grids e).find? fun r => r.1 == c with
    | none => rw [hfind] at heq; cases heq
    | some pr =>
      rw [hfind] at heq
      have hv2 : pr.2 = v := by simpa using heq
      rw [← hv2]
      exact hg e pr (List.mem_of_find?_eq_some hfind)
  · intro cache year hx hmem
    cases cache with
    | none => cases hmem
    | some d =>
      simp only [getDataForYear] at hmem
      cases hl : lookupYear d.populationByYear year with
      | none =>
        rw [hl] at hmem
        simp at hmem
      | some pops =>
        rw [hl] at hmem
        rcases List.mem_filterMap.mp hmem with ⟨i, _, hi⟩
        cases hA : d.h3Indices[i]? with
        | none => rw [hA] at hi; simp at hi
        | some h3i =>
          rw [hA] at hi
          simp only [Option.some_bind] at hi
          cases hB : pops[i]? with
          | none => rw [hB] at hi; simp at hi
          | some p =>
            rw [hB] at hi
            simp only [Option.some_bind] at hi
            by_cases hp : 0 < p
            · rw [if_pos hp] at hi
              obtain rfl := Option.some.inj hi
              exact hp
            · rw [if_neg hp] at hi
              cases hi

/-- Witness for C5: a concrete kept pixel yields a positive emission; a
concrete nonnegative group merges to a nonnegative value; a concrete
composed entry is nonnegative; a concrete per-year view entry is strictly
positive. -/
theorem pipeline_nonneg_witness :
    (0 : ℚ) < (CellValue.mk 3 5).value ∧
    (0 : ℚ) ≤ ((1 : Nat), (2 : ℚ)).2 ∧
    (0 : ℚ) ≤ (5 : ℚ) ∧
    (0 : ℚ) < (H3Hexagon.mk "8a1fb46622dffff" 4).population := by
  have h := pipeline_nonneg
  refine ⟨?_, ?_, ?_, ?_⟩
  · refine h.1 cellOf (-200) [exPixel] (CellValue.mk 3 5) ?_
    rw [rasterize_single cellOf (-200) exPixel (by norm_num [exPixel])
      (by norm_num [exPixel])]
    simp [cellOf, exPixel]
  · refine h.2.1 exPRsOne (by decide) (1, 2) ?_
    show ((1 : Nat), (2 : ℚ)) ∈ mergeDedup [[CellValue.mk 1 2]]
    rw [mergeDedup_single]
    simp
  · refine h.2.2.1 exEpochs exGrids ?_ (7, [none, some 5]) (by decide) 5 (by decide)
    intro e r hr
    by_cases he : e = 1980
    · subst he
      simp [exGrids] at hr
      rw [hr]
      norm_num
    · simp [exGrids, he] at hr
  · exact h.2.2.2 (some exRawData) 2020 (H3Hexagon.mk "8a1fb46622dffff" 4) (by decide)

/-- C6: epoch enumeration.  YEAR_EPOCHS holds exactly twelve epochs, each
five years after the previous, from 1975 to 2030 (a span of 55 years), and
the TimeSeriesGrid built over them has one value column per epoch and one
row per distinct cell_id seen in any epoch. -/
theorem epoch_enumeration (grids : Nat → List (Nat × ℚ)) :
    YEAR_EPOCHS.length = 12 ∧
    List.zipWith (fun a b => b - a) YEAR_EPOCHS YEAR_EPOCHS.tail
      = List.replicate 11 5 ∧
    YEAR_EPOCHS.head? = some 1975 ∧
    YEAR_EPOCHS.getLast? = some 2030 ∧
    (∀ row ∈ composeTimeSeries YEAR_EPOCHS grids, row.2.length = 12) ∧
    ((composeTimeSeries YEAR_EPOCHS grids).map Prod.fst).Nodup ∧
    ∀ c : Nat, c ∈ (composeTimeSeries YEAR_EPOCHS grids).map Prod.fst ↔
      ∃ e ∈ YEAR_EPOCHS, c ∈ (grids e).map Prod.fst := by
  have hmap : (composeTimeSeries YEAR_EPOCHS grids).map Prod.fst
      = (YEAR_EPOCHS.flatMap fun e => (grids e).map Prod.fst).dedup := by
    unfold composeTimeSeries
    rw [List.map_map]
    have hid : (Prod.fst ∘ fun c => (c, YEAR_EPOCHS.map fun e =>
        ((grids e).find? fun r => r.1 == c).map Prod.snd)) = id := rfl
    rw [hid, List.map_id]
  refine ⟨by decide, by decide, by decide, by decide, ?_, ?_, ?_⟩
  · intro row hrow
    unfold composeTimeSeries at hrow
    rcases List.mem_map.mp hrow with ⟨c, _, rfl⟩
    simp [YEAR_EPOCHS]
  · rw [hmap]
    exact List.nodup_dedup _
  · intro c
    rw [hmap, List.mem_dedup, List.mem_flatMap]

/-- Witness for C6: the composed row of cell 7 over the full epoch set has
twelve columns. -/
theorem epoch_enumeration_witness :
    ((7 : Nat), ([none, some (5 : ℚ), none, none, none, none, none, none, none,
      none, none, none] : List (Option ℚ))) ∈ composeTimeSeries YEAR_EPOCHS exGrids ∧
    ([none, some (5 : ℚ), none, none, none, none, none, none, none,
      none, none, none] : List (Option ℚ)).length = 12 := by
  refine ⟨by decide, ?_⟩
  exact (epoch_enumeration exGrids).2.2.2.2.1
    ((7 : Nat), ([none, some (5 : ℚ), none, none, none, none, none, none, none,
      none, none, none] : List (Option ℚ))) (by decide)

/-- The records a list splits into under a boolean test and its negation
together account for its whole length. -/
lemma length_filter_not (plan : List Nat) (done : Nat → Bool) :
    (plan.filter done).length + (plan.filter fun p => !done p).length
      = plan.length := by
  induction plan with
  | nil => rfl
  | cons a t ih =>
    by_cases h : done a = true
    · simp [List.filter_cons, h]
      omega
    · simp [List.filter_cons, h]
      omega

/-- C7: resumability.  A run over a plan with K partitions already complete
in the ProgressCheckpoint processes exactly the partitions not yet complete
(N−K of them), and — whenever the stored PartialResult of every complete
partition is the one its worker produces — the final CanonicalGrid is
identical to the grid of an uninterrupted run that processes every
partition. -/
theorem orchestrator_resume (worker : Nat → PartialResult) (plan : List Nat)
    (done : Nat → Bool) (store : Nat → Option PartialResult)
    (h : ∀ p, done p = true → store p = some (worker p)) :
    (runPipeline worker plan done store).1 = plan.filter (fun p => !done p) ∧
    (∀ p ∈ (runPipeline worker plan done store).1, done p = false) ∧
    (plan.filter done).length + (runPipeline worker plan done store).1.length
      = plan.length ∧
    (runPipeline worker plan done store).2 = mergeDedup (plan.map worker) := by
  refine ⟨rfl, ?_, ?_, ?_⟩
  · intro p hp
    have h2 := (List.mem_filter.mp hp).2
    simpa using h2
  · exact length_filter_not plan done
  · show mergeDedup (plan.map fun p => if done p then (store p).getD [] else worker p)
      = mergeDedup (plan.map worker)
    congr 1
    apply List.map_congr_left
    intro p _
    by_cases hd : done p = true
    · rw [if_pos hd, h p hd]
      rfl
    · rw [if_neg hd]

/-- Witness for C7: with partition 1 complete out of the plan [1, 2, 3], the
resumed run processes exactly [2, 3] and its CanonicalGrid equals the
uninterrupted run's. -/
theorem orchestrator_resume_witness :
    (runPipeline exWorker exPlan exDone exStore).1 = [2, 3] ∧
    (runPipeline exWorker exPlan exDone exStore).2
      = mergeDedup (exPlan.map exWorker) := by
  have hstore : ∀ p, exDone p = true → exStore p = some (exWorker p) := by
    intro p hp
    have hp1 : p = 1 := by simpa [exDone] using hp
    subst hp1
    rfl
  have hc := orchestrator_resume exWorker exPlan exDone exStore hstore
  exact ⟨by rw [hc.1]; decide, hc.2.2.2⟩

/-- C8: merge barrier.  The Merge-Dedup Engine for a group produces a grid
exactly when every partition of the group shows complete in the
ProgressCheckpoint; with any partition not complete it signals
IncompleteGroup; and the Orchestrator turns IncompleteGroup into a deferral,
never into an operator error. -/
theorem merge_barrier (ckpt : Nat → Status) (group : List Nat)
    (results : Nat → PartialResult) :
    ((∀ p ∈ group, ckpt p = Status.complete) →
      mergeGroup ckpt group results
        = MergeOutcome.grid (mergeDedup (group.map results))) ∧
    ((∃ p ∈ group, ckpt p ≠ Status.complete) →
      mergeGroup ckpt group results = MergeOutcome.incompleteGroup) ∧
    handleMergeOutcome MergeOutcome.incompleteGroup
      = OrchestratorAction.deferMerge ∧
    ∀ (msg : String) (o : MergeOutcome),
      handleMergeOutcome o ≠ OrchestratorAction.reportError msg := by
  refine ⟨?_, ?_, rfl, ?_⟩
  · intro hall
    unfold mergeGroup
    rw [if_pos]
    exact List.all_eq_true.mpr fun p hp => by
      simp only [beq_iff_eq]
      exact hall p hp
  · rintro ⟨p, hp, hne⟩
    unfold mergeGroup
    rw [if_neg]
    intro hall
    exact hne (beq_iff_eq.mp (List.all_eq_true.mp hall p hp))
  · intro msg o
    cases o <;> simp [handleMergeOutcome]

/-- Witness for C8: a fully complete two-partition group merges to its grid,
and the same group with partition 2 pending signals IncompleteGroup. -/
theorem merge_barrier_witness :
    mergeGroup exCkptAll exGroup exResults
      = MergeOutcome.grid (mergeDedup (exGroup.map exResults)) ∧
    mergeGroup exCkptPart exGroup exResults = MergeOutcome.incompleteGroup := by
  refine ⟨(merge_barrier exCkptAll exGroup exResults).1 (by decide), ?_⟩
  exact (merge_barrier exCkptPart exGroup exResults).2.1 ⟨2, by decide, by decide⟩

/-- C9: total lookup at the consumer interface.  getDataForYear returns the
empty list — it does not throw and has no undefined result — both when no
dataset has been loaded and when the loaded dataset has no population array
for the requested year. -/
theorem getDataForYear_total_lookup (d : H3RawData) (year : Nat)
    (hy : lookupYear d.populationByYear year = none) :
    getDataForYear none year = [] ∧ getDataForYear (some d) year = [] := by
  refine ⟨rfl, ?_⟩
  simp only [getDataForYear]
  rw [hy]

/-- Witness for C9: a dataset with only a 2020 population array yields the
empty list for 1999. -/
theorem getDataForYear_total_lookup_witness :
    lookupYear exRawData.populationByYear 1999 = none ∧
    getDataForYear (some exRawData) 1999 = [] := by
  refine ⟨by decide, ?_⟩
  exact (getDataForYear_total_lookup exRawData 1999 (by decide)).2

/-- An event leaves a state with a populated cache and no in-flight promise
unchanged. -/
lemma loadStep_fixed (s : LoadState) (e : LoadEvent)
    (hc : s.cache.isSome = true) (hp : s.promise = none) : loadStep s e = s := by
  cases e with
  | call => simp [loadStep, hp, hc]
  | succeed d => simp [loadStep, hp]
  | fail => simp [loadStep, hp]

/-- Every event preserves the cache-implies-no-promise invariant. -/
lemma loadStep_inv (s : LoadState) (e : LoadEvent) (h : LoadInv s) :
    LoadInv (loadStep s e) := by
  cases e with
  | call =>
    cases hp : s.promise with
    | some p =>
      have hfix : loadStep s LoadEvent.call = s := by simp [loadStep, hp]
      rw [hfix]
      exact h
    | none =>
      by_cases hc : s.cache.isSome = true
      · have hfix : loadStep s LoadEvent.call = s := by simp [loadStep, hp, hc]
        rw [hfix]
        exact h
      · have hfix : loadStep s LoadEvent.call
            = LoadState.mk s.cache (some s.fetches) (s.fetches + 1) := by
          simp [loadStep, hp, hc]
        rw [hfix]
        intro hcs
        exact absurd hcs hc
  | succeed d =>
    cases hp : s.promise with
    | some p =>
      have hfix : loadStep s (LoadEvent.succeed d)
          = LoadState.mk (some d) none s.fetches := by
        simp [loadStep, hp]
      rw [hfix]
      intro _
      rfl
    | none =>
      have hfix : loadStep s (LoadEvent.succeed d) = s := by simp [loadStep, hp]
      rw [hfix]
      exact h
  | fail =>
    cases hp : s.promise with
    | some p =>
      have hfix : loadStep s LoadEvent.fail = LoadState.mk s.cache none s.fetches := by
        simp [loadStep, hp]
      rw [hfix]
      intro _
      rfl
    | none =>
      have hfix : loadStep s LoadEvent.fail = s := by simp [loadStep, hp]
      rw [hfix]
      exact h

/-- The invariant holds along any event sequence from an invariant state. -/
lemma loadFoldl_inv : ∀ (evs : List LoadEvent) (s : LoadState), LoadInv s →
    LoadInv (evs.foldl loadStep s) := by
  intro evs
  induction evs with
  | nil => intro s h; exact h
  | cons e t ih =>
    intro s h
    exact ih _ (loadStep_inv s e h)

/-- Every session state satisfies the cache-implies-no-promise invariant. -/
lemma loadRun_inv (evs : List LoadEvent) : LoadInv (loadRun evs) :=
  loadFoldl_inv evs initLoadState (fun _ => rfl)

/-- A populated cache survives any further event sequence unchanged. -/
lemma loadFoldl_cache_stable : ∀ (more : List LoadEvent) (s : LoadState),
    LoadInv s → ∀ d : Nat, s.cache = some d →
    (more.foldl loadStep s).cache = some d := by
  intro more
  induction more with
  | nil => intro s _ d hd; exact hd
  | cons e t ih =>
    intro s hinv d hd
    have hc : s.cache.isSome = true := by rw [hd]; rfl
    have hfix : loadStep s e = s := loadStep_fixed s e hc (hinv hc)
    simp only [List.foldl_cons, hfix]
    exact ih s hinv d hd

/-- Every non-failure event preserves the at-most-one-fetch invariant. -/
lemma loadStep_fetchInv (s : LoadState) (e : LoadEvent) (he : e ≠ LoadEvent.fail)
    (h : FetchInv s) : FetchInv (loadStep s e) := by
  cases e with
  | call =>
    cases hp : s.promise with
    | some p =>
      have hfix : loadStep s LoadEvent.call = s := by simp [loadStep, hp]
      rw [hfix]
      exact h
    | none =>
      by_cases hc : s.cache.isSome = true
      · have hfix : loadStep s LoadEvent.call = s := by simp [loadStep, hp, hc]
        rw [hfix]
        exact h
      · have hzero : s.fetches = 0 := by
          rcases Nat.lt_or_ge s.fetches 1 with h1 | h1
          · omega
          · have h1e : s.fetches = 1 := le_antisymm h.1 h1
            rcases h.2 h1e with hps | hcs
            · rw [hp] at hps
              cases hps
            · exact absurd hcs hc
        have hfix : loadStep s LoadEvent.call
            = LoadState.mk s.cache (some s.fetches) (s.fetches + 1) := by
          simp [loadStep, hp, hc]
        rw [hfix]
        constructor
        · simp [hzero]
        · intro _
          left
          rfl
  | succeed d =>
    cases hp : s.promise with
    | some p =>
      have hfix : loadStep s (LoadEvent.succeed d)
          = LoadState.mk (some d) none s.fetches := by
        simp [loadStep, hp]
      rw [hfix]
      exact ⟨h.1, fun _ => Or.inr rfl⟩
    | none =>
      have hfix : loadStep s (LoadEvent.succeed d) = s := by simp [loadStep, hp]
      rw [hfix]
      exact h
  | fail => exact absurd rfl he

/-- The at-most-one-fetch invariant holds along any failure-free event
sequence. -/
lemma loadFoldl_fetchInv : ∀ (evs : List LoadEvent) (s : LoadState),
    (∀ e ∈ evs, e ≠ LoadEvent.fail) → FetchInv s →
    FetchInv (evs.foldl loadStep s) := by
  intro evs
  induction evs with
  | nil => intro s _ h; exact h
  | cons e t ih =>
    intro s hall h
    exact ih _ (fun x hx => hall x (List.mem_cons_of_mem _ hx))
      (loadStep_fetchInv s e (hall e (List.mem_cons_self _ _)) h)

/-- C10 counterexample: loadData does not fetch at most once per session.
In the session call–fail–call, the failed load's finally block clears
loadPromise while rawDataCache stays empty, so the second call starts a
second fetch: two fetches in one session. -/
theorem loadData_refetch_after_failure :
    (loadRun [LoadEvent.call, LoadEvent.fail, LoadEvent.call]).fetches = 2 ∧
    ¬(loadRun [LoadEvent.call, LoadEvent.fail, LoadEvent.call]).fetches ≤ 1 := by
  decide

/-- C10 (amended): load-once idempotence up to failures.  A call made while a
load is in flight returns the existing in-flight promise and changes
nothing; a call made after a successful load returns immediately without
fetching; the cached dataset, once populated, is never replaced; and in any
session in which no load fails, at most one fetch ever starts. -/
theorem loadData_load_once :
    (∀ (s : LoadState) (p : Nat), s.promise = some p →
      callResult s = CallResult.existing p ∧ loadStep s LoadEvent.call = s) ∧
    (∀ s : LoadState, s.promise = none → s.cache.isSome = true →
      callResult s = CallResult.immediate ∧ loadStep s LoadEvent.call = s) ∧
    (∀ (evs more : List LoadEvent) (d : Nat), (loadRun evs).cache = some d →
      (loadRun (evs ++ more)).cache = some d) ∧
    ∀ evs : List LoadEvent, (∀ e ∈ evs, e ≠ LoadEvent.fail) →
      (loadRun evs).fetches ≤ 1 := by
  refine ⟨?_, ?_, ?_, ?_⟩
  · intro s p hp
    constructor
    · simp [callResult, hp]
    · simp [loadStep, hp]
  · intro s hp hc
    constructor
    · simp [callResult, hp, hc]
    · simp [loadStep, hp, hc]
  · intro evs more d hd
    have happ : loadRun (evs ++ more) = more.foldl loadStep (loadRun evs) := by
      unfold loadRun
      rw [List.foldl_append]
    rw [happ]
    exact loadFoldl_cache_stable more (loadRun evs) (loadRun_inv evs) d hd
  · intro evs hall
    exact (loadFoldl_fetchInv evs initLoadState hall (by decide)).1

/-- Witness for C10 (amended), at concrete states and sessions: an in-flight
call is a no-op returning the existing promise; a loaded call returns
immediately; a cache populated by a successful load survives a further call;
a failure-free session performs at most one fetch. -/
theorem loadData_load_once_witness :
    (callResult (LoadState.mk none (some 5) 1) = CallResult.existing 5 ∧
      loadStep (LoadState.mk none (some 5) 1) LoadEvent.call
        = LoadState.mk none (some 5) 1) ∧
    (callResult (LoadState.mk (some 9) none 1) = CallResult.immediate ∧
      loadStep (LoadState.mk (some 9) none 1) LoadEvent.call
        = LoadState.mk (some 9) none 1) ∧
    (loadRun ([LoadEvent.call, LoadEvent.succeed 9] ++ [LoadEvent.call])).cache
      = some 9 ∧
    (loadRun [LoadEvent.call, LoadEvent.succeed 3, LoadEvent.call]).fetches ≤ 1 := by
  refine ⟨?_, ?_, ?_, ?_⟩
  · exact loadData_load_once.1 (LoadState.mk none (some 5) 1) 5 rfl
  · exact loadData_load_once.2.1 (LoadState.mk (some 9) none 1) rfl rfl
  · exact loadData_load_once.2.2.1 [LoadEvent.call, LoadEvent.succeed 9]
      [LoadEvent.call] 9 (by decide)
  · exact loadData_load_once.2.2.2
      [LoadEvent.call, LoadEvent.succeed 3, LoadEvent.call] (by decide)
